import Mathlib

/-!
Verification development for the Dyalog APL docset generator
(`generate_docset.py`).  The script crawls an HTML help site, sanitizes every
page, classifies it into a Dash entry type and builds a lookup index.  This
file gives a shallow embedding of the script's pure core: string/URL helpers,
the entry-type classifier, the HTML sanitizer (over an element-sequence model
of a parsed page), the download cache and the crawl loop, together with
theorems about the claimed properties.

All character/string manipulation is implemented by structural recursion on
`List Char` so that every definition is executable and kernel-reducible.
-/

/-! ## Basic string utilities (over `List Char`) -/

/-- Boolean test that the list `p` is an initial segment of `l`. -/
def startsWithL (p l : List Char) : Bool :=
  match p, l with
  | [], _ => true
  | _ :: _, [] => false
  | a :: ps, c :: cs => a == c && startsWithL ps cs

/-- Boolean substring containment on char lists: does `pat` occur
contiguously inside `l`?  (Models Python's `pat in s`.) -/
def strContainsChars (pat : List Char) : List Char → Bool
  | [] => pat.isEmpty
  | c :: rest => startsWithL pat (c :: rest) || strContainsChars pat rest

/-- Python's `pat in s` substring test on strings. -/
def strContainsB (s pat : String) : Bool :=
  strContainsChars pat.data s.data

/-- Boolean `startsWith` on strings (models Python `str.startswith`). -/
def startsW (s pat : String) : Bool :=
  startsWithL pat.data s.data

/-- Boolean `endsWith` on strings (models Python `str.endswith`). -/
def endsW (s pat : String) : Bool :=
  startsWithL pat.data.reverse s.data.reverse

/-- Split a char list at every occurrence of the character `sep`
(models Python `str.split(sep)` for a single-character separator,
and `urllib`'s `path.split('/')`). -/
def splitChar (sep : Char) : List Char → List (List Char)
  | [] => [[]]
  | c :: rest =>
    match splitChar sep rest with
    | [] => [[c]]
    | g :: gs => if c == sep then [] :: g :: gs else (c :: g) :: gs

/-- Split at the first occurrence of `sep`: returns the part before it and,
when `sep` occurs, the part after it. -/
def splitFirst (sep : Char) : List Char → List Char × Option (List Char)
  | [] => ([], none)
  | c :: rest =>
    if c == sep then ([], some rest)
    else
      let r := splitFirst sep rest
      (c :: r.1, r.2)

/-- Join char-list segments with the separator `sep` (models `sep.join(...)`). -/
def joinChar (sep : Char) : List (List Char) → List Char
  | [] => []
  | [g] => g
  | g :: gs => g ++ sep :: joinChar sep gs

/-! ## URL helpers (`urllib.parse`, restricted to the URL shapes the
crawler passes them: no query strings, bases are site-relative paths) -/

/-- Valid non-initial characters of a URL scheme. -/
def isSchemeChar (c : Char) : Bool :=
  c.isAlphanum || c == '+' || c == '-' || c == '.'

/-- Scan for the `:` ending a scheme; `none` if a non-scheme character or the
end of the string is reached first. -/
def schemeRestAux : List Char → Option (List Char)
  | [] => none
  | c :: r => if c == ':' then some r else if isSchemeChar c then schemeRestAux r else none

/-- If `u` begins with a valid URL scheme followed by `:`, return the part
after the colon; otherwise `none`.  A scheme starts with a letter
(as in `urllib.parse`). -/
def schemeSplit (u : String) : Option String :=
  match u.data with
  | [] => none
  | c :: r => if c.isAlpha then (schemeRestAux r).map (fun rest => String.mk rest) else none

/-- Does `u` carry an explicit scheme (`http:`, `mailto:`, ...)? -/
def hasSchemeB (u : String) : Bool :=
  (schemeSplit u).isSome

/-- The URL with its scheme (if any) stripped. -/
def afterScheme (u : String) : String :=
  (schemeSplit u).getD u

/-- The network-location component of `u`, as computed by
`urllib.parse.urlparse`: the part between a leading `//` (after the optional
scheme) and the next `/`, `?` or `#`; empty when there is no `//`. -/
def netlocOf (u : String) : String :=
  let r := afterScheme u
  if startsW r "//" then
    String.mk (((afterScheme u).data.drop 2).takeWhile
      (fun c => !(c == '/') && !(c == '?') && !(c == '#')))
  else ""

/-- `is_relative_href` from the source: a hyperlink target is
"same-origin/relative" iff it is present, `urlparse` finds no network
location in it, and it does not start with `javascript:` or `mailto:`. -/
def is_relative_href : Option String → Bool
  | none => false
  | some href =>
    netlocOf href == "" && !(startsW href "javascript:") && !(startsW href "mailto:")

/-- `urllib.parse.urldefrag`: split at the first `#`.  The fragment is empty
when there is no `#`. -/
def urldefrag (u : String) : String × String :=
  match splitFirst '#' u.data with
  | (b, some f) => (String.mk b, String.mk f)
  | (_, none) => (u, "")

/-- The base's path segments used for relative resolution: `bpath.split('/')`
with the last segment deleted unless it is empty (i.e. unless the base path
ends in `/`), as in `urllib.parse.urljoin`. -/
def baseParts (bpath : String) : List (List Char) :=
  let ps := splitChar '/' bpath.data
  if ps.getLast? = some [] then ps else ps.dropLast

/-- Drop empty segments, keeping the first and last positions untouched:
models `segments[1:-1] = filter(None, segments[1:-1])` in `urljoin`. -/
def filterMiddleAux : List (List Char) → List (List Char)
  | [] => []
  | [g] => [g]
  | g :: gs => if g.isEmpty then filterMiddleAux gs else g :: filterMiddleAux gs

/-- See `filterMiddleAux`; the head segment is always kept. -/
def filterMiddle : List (List Char) → List (List Char)
  | [] => []
  | g :: gs => g :: filterMiddleAux gs

/-- Resolve `.` and `..` segments the way `urljoin` does: `..` pops the last
resolved segment (popping an empty list is a no-op, mirroring the
`try: pop() except IndexError: pass` in `urllib.parse`). -/
def resolveDots (segs : List (List Char)) : List (List Char) :=
  segs.foldl
    (fun acc seg =>
      if seg == ['.', '.'] then acc.dropLast
      else if seg == ['.'] then acc
      else acc ++ [seg])
    []

/-- Join the resolved segments back into a path: a trailing `.`/`..` segment
leaves a trailing slash, and an empty join collapses to `/`
(`'/'.join(resolved_path) or '/'`). -/
def joinSegments (segs : List (List Char)) : String :=
  let r := resolveDots segs
  let r := if segs.getLast? = some ['.'] ∨ segs.getLast? = some ['.', '.'] then r ++ [[]] else r
  let j := joinChar '/' r
  if j.isEmpty then "/" else String.mk j

/-- `urllib.parse.urljoin`, modelled for the URL shapes this crawler passes
it: the base is a site-relative page path (no scheme, no authority, no query)
and the reference has already had its fragment stripped.  A reference with
its own scheme, or with an authority (`//...`), replaces the base outright;
an absolute path replaces the base path; a relative path is merged onto the
base's directory and `.`/`..` segments are resolved. -/
def urljoin (base url : String) : String :=
  if base = "" then url
  else if url = "" then base
  else if hasSchemeB url then url
  else if startsW url "//" then url
  else if startsW url "/" then joinSegments (splitChar '/' url.data)
  else joinSegments (filterMiddle (baseParts base ++ splitChar '/' url.data))

/-- `resolve_url` from the source: strip the fragment; a `../index.htm`
reference is a `_top` redirect and resolves to `/Content/` plus the fragment;
anything else resolves relatively against the referring page's URL. -/
def resolve_url (page href : String) : String :=
  let bf := urldefrag href
  if strContainsB bf.1 "../index.htm" then "/Content/" ++ bf.2
  else urljoin page bf.1

/-! ## The entry-type classifier -/

/-- The `ENTRY_TYPES` table from the source, in its (insertion-ordered)
Python dict order: the first key that is a substring of the page path wins. -/
def ENTRY_TYPES : List (String × String) :=
  [("Language/I Beam Functions", "Function"),
   ("Language/Primitive Functions", "Function"),
   ("Language/System Functions", "Function"),
   ("DotNet", "Guide"),
   ("InterfaceGuide", "Guide"),
   ("Language/APL Component Files", "Guide"),
   ("Language/Appendices/PCRE", "Guide"),
   ("Language/Defined Functions and Operators", "Guide"),
   ("Language/Introduction", "Guide"),
   ("Language/Object Oriented Programming", "Guide"),
   ("RelNotes", "Guide"),
   ("UNIX_IUG", "Guide"),
   ("UserGuide", "Guide"),
   ("GUI/Examples", "Guide"),
   ("Language/Error Trapping", "Guide"),
   ("MiscPages", "Section"),
   ("GUI/Miscellaneous", "Section"),
   ("GUI/SummaryTables", "Section"),
   ("GUI/Objects", "Object"),
   ("GUI/ChildLists", "Object"),
   ("GUI/EventLists", "Object"),
   ("GUI/MethodLists", "Object"),
   ("GUI/MethodOrEventApplies", "Object"),
   ("GUI/ParentLists", "Object"),
   ("GUI/PropLists", "Object"),
   ("GUI/PropertyApplies", "Object"),
   ("GUI/Properties", "Property"),
   ("Language/Control Structures", "Statement"),
   ("Language/Errors", "Error"),
   ("Language/Primitive Operators", "Operator"),
   ("Language/System Commands", "Command"),
   ("Language/Symbols", "Notation")]

/-- `get_entry_type` from the source.  The Python code ends with
`next(v for k, v in ENTRY_TYPES.items() if k in path)`, which raises
`StopIteration` (a fatal, uncaught error) when no key matches; that crash is
modelled by the `none` result. -/
def get_entry_type (path title : String) : Option String :=
  if strContainsB path "GUI/MethodOrEvents" then
    some (if strContainsB title " Event" then "Event" else "Method")
  else if strContainsB path "UserGuide/Installation and Configuration/Configuration Parameters" then
    some "Setting"
  else (ENTRY_TYPES.find? (fun kv => strContainsB path kv.1)).map (fun kv => kv.2)

/-- Interpretation of the claim's phrase "the title contains the word
`Event`" (spec side, for comparison with the source's substring test): the
whitespace-split words of the title include `Event`. -/
def titleContainsWordEvent (title : String) : Bool :=
  (splitChar ' ' title.data).contains "Event".data

/-- The path rewrite applied by `create_docset_index` before classification
and insertion: `path.removesuffix(".htm") + ".html"`. -/
def index_path_rewrite (p : String) : String :=
  (if endsW p ".htm" then String.mk (p.data.reverse.drop 4).reverse else p) ++ ".html"

/-! ## Properties of the string containment test -/

theorem startsWithL_iff (p l : List Char) : startsWithL p l = true ↔ p <+: l := by
  induction p generalizing l with
  | nil => simp [startsWithL]
  | cons a ps ih =>
    cases l with
    | nil => simp [startsWithL]
    | cons c cs =>
      simp [startsWithL, List.cons_prefix_cons, ih, Bool.and_eq_true, beq_iff_eq]

theorem strContainsChars_iff (pat l : List Char) :
    strContainsChars pat l = true ↔ pat <:+: l := by
  induction l with
  | nil =>
    simp [strContainsChars, List.isEmpty_iff]
  | cons c rest ih =>
    simp [strContainsChars, Bool.or_eq_true, startsWithL_iff, ih, List.infix_cons_iff]

theorem strContainsB_iff (s pat : String) :
    strContainsB s pat = true ↔ pat.data <:+: s.data :=
  strContainsChars_iff pat.data s.data

/-- Substring containment is transitive (used for the `UserGuide` prefix
also matching any configuration-parameters path). -/
theorem strContainsB_trans {s p q : String} (h1 : strContainsB s p = true)
    (h2 : strContainsB p q = true) : strContainsB s q = true := by
  rw [strContainsB_iff] at h1 h2 ⊢
  exact h2.trans h1

/-! ## The HTML page model

A parsed page is modelled as the document-order sequence of its (leaf)
elements plus the `onload` attribute of `<body>`.  Each element carries the
attributes the script reads or writes: tag name, `class` list, `href`,
`src`, `rel`, the `name` attribute (used by the inserted anchors) and its
text content (`get_text()`). -/

structure El where
  tag : String
  classes : List String
  href : Option String
  src : Option String
  rel : List String
  nameAttr : Option String
  text : String
deriving DecidableEq

structure Doc where
  bodyOnload : Option String
  els : List El
deriving DecidableEq

/-- Elements removed first by `sanitize_html`: the
"Open topic with navigation" link and the breadcrumbs
(`soup(class_=["MCWebHelpFramesetLinkTop", "breadcrumbs"])`). -/
def isFurniture (e : El) : Bool :=
  e.classes.contains "MCWebHelpFramesetLinkTop" || e.classes.contains "breadcrumbs"

/-- Python whitespace characters (as matched by `str.strip()` and `\s` on
the ASCII documents at hand). -/
def pyIsSpace (c : Char) : Bool :=
  c == ' ' || c == '\t' || c == '\n' || c == '\r' || c == '\x0b' || c == '\x0c'

/-- `str.strip()`: drop whitespace from both ends. -/
def pyStrip (l : List Char) : List Char :=
  ((l.dropWhile pyIsSpace).reverse.dropWhile pyIsSpace).reverse

/-- State-machine worker for `collapseWs`: `inRun` records whether the
previous character was whitespace (in which case further whitespace is
dropped rather than emitted). -/
def collapseWsF : Bool → List Char → List Char
  | _, [] => []
  | inRun, c :: rest =>
    if pyIsSpace c then
      (if inRun then collapseWsF true rest else ' ' :: collapseWsF true rest)
    else c :: collapseWsF false rest

/-- `re.sub(r"\s+", " ", ...)`: collapse every maximal whitespace run to a
single space. -/
def collapseWs (l : List Char) : List Char :=
  collapseWsF false l

/-- `clean_heading_name` from the source:
`re.sub(r"\s+", " ", heading.strip()).removesuffix(":")`. -/
def clean_heading_name (s : String) : String :=
  let t := collapseWs (pyStrip s.data)
  let t := if t.getLast? = some ':' then t.dropLast else t
  String.mk t

/-- ASCII `str.lower()`. -/
def lowerStr (s : String) : String :=
  String.mk (s.data.map Char.toLower)

/-- `is_section_heading` from the source: an `h4`/`h5` whose cleaned text is
not "example"/"examples" (`h3` is the top heading), or a `p` with the
`TableCaption` class. -/
def is_section_heading (e : El) : Bool :=
  if e.tag == "h4" || e.tag == "h5" then
    !(["example", "examples"].contains (lowerStr (clean_heading_name e.text)))
  else e.tag == "p" && e.classes.contains "TableCaption"

/-- Python's `s.replace(".htm", ".html")` at the character level: replace
every (leftmost, non-overlapping) occurrence of `.htm` by `.html`. -/
def replaceHtmHtml : List Char → List Char
  | '.' :: 'h' :: 't' :: 'm' :: rest => '.' :: 'h' :: 't' :: 'm' :: 'l' :: replaceHtmHtml rest
  | c :: rest => c :: replaceHtmHtml rest
  | [] => []

/-- `s.replace(".htm", ".html")` on strings. -/
def replaceHtmStr (s : String) : String :=
  String.mk (replaceHtmHtml s.data)

/-- The link-patching pass of `sanitize_html`: every `a` element whose
`href` passes `is_relative_href` gets
`link["href"] = link["href"].replace(".htm", ".html")`. -/
def rewriteLink (e : El) : El :=
  if e.tag == "a" && is_relative_href e.href then { e with href := e.href.map replaceHtmStr }
  else e

/-- UTF-8 bytes of a character (pure arithmetic, so it kernel-reduces). -/
def utf8Bytes (c : Char) : List Nat :=
  let n := c.toNat
  if n < 0x80 then [n]
  else if n < 0x800 then [0xC0 + n / 64, 0x80 + n % 64]
  else if n < 0x10000 then [0xE0 + n / 4096, 0x80 + (n / 64) % 64, 0x80 + n % 64]
  else [0xF0 + n / 262144, 0x80 + (n / 4096) % 64, 0x80 + (n / 64) % 64, 0x80 + n % 64]

/-- Unreserved bytes that `urllib.parse.quote` leaves unencoded
(ASCII alphanumerics and `-._~`); everything else is percent-encoded since
the call passes `safe=""`. -/
def isUnreservedByte (b : Nat) : Bool :=
  (0x30 ≤ b && b ≤ 0x39) || (0x41 ≤ b && b ≤ 0x5A) || (0x61 ≤ b && b ≤ 0x7A) ||
    b == 0x2D || b == 0x2E || b == 0x5F || b == 0x7E

/-- An uppercase hexadecimal digit. -/
def hexDigitU (n : Nat) : Char :=
  if n < 10 then Char.ofNat (48 + n) else Char.ofNat (55 + n)

/-- `urllib.parse.quote(s, safe="")`: percent-encode every byte of the UTF-8
encoding except the unreserved ones. -/
def pquote (s : String) : String :=
  String.mk
    (((s.data.map utf8Bytes).flatten).foldr
      (fun b acc =>
        if isUnreservedByte b then Char.ofNat b :: acc
        else '%' :: hexDigitU (b / 16) :: hexDigitU (b % 16) :: acc)
      [])

/-- The Dash anchor inserted before a section heading:
`<a name='//apple_ref/cpp/Section/{quoted}' class='dashAnchor'></a>`. -/
def anchorFor (e : El) : El :=
  { tag := "a", classes := ["dashAnchor"], href := none, src := none, rel := [],
    nameAttr := some ("//apple_ref/cpp/Section/" ++ pquote (clean_heading_name e.text)),
    text := "" }

/-- Worker for `groupbyFirsts`: `k` is the key of the run currently being
skipped; an element with the same key is dropped (it belongs to the current
`groupby` group), one with a new key opens a new group and is kept. -/
def groupbyFirstsAux (key : El → String) (k : String) : List El → List El
  | [] => []
  | y :: ys =>
    if key y == k then groupbyFirstsAux key k ys
    else y :: groupbyFirstsAux key (key y) ys

/-- The `sections` list of `sanitize_html`: `itertools.groupby` groups the
qualifying headings by consecutive equal cleaned names and `next(v)` keeps
the first element of each group, so consecutive same-text headings collapse
to one representative. -/
def groupbyFirsts (key : El → String) : List El → List El
  | [] => []
  | x :: xs => x :: groupbyFirstsAux key (key x) xs

/-- The anchor-insertion pass: one anchor is inserted immediately before
each element of `sections`, i.e. before every qualifying heading whose
cleaned name differs from the previous qualifying heading's cleaned name
(the first element of its `groupby` group).  `prev` is the cleaned name of
the last qualifying heading already passed. -/
def anchorPass : Option String → List El → List El
  | _, [] => []
  | prev, e :: rest =>
    if is_section_heading e then
      let k := clean_heading_name e.text
      if prev == some k then e :: anchorPass (some k) rest
      else anchorFor e :: e :: anchorPass (some k) rest
    else e :: anchorPass prev rest

/-- The element sequence after the removal and link-rewrite passes of
`sanitize_html`: furniture elements extracted, `script` elements extracted,
relative `a`-hrefs rewritten to `.html`. -/
def scrubbed (d : Doc) : List El :=
  ((d.els.filter (fun e => !isFurniture e)).filter (fun e => !(e.tag == "script"))).map rewriteLink

/-- The `sections` list computed by `sanitize_html` on the given page. -/
def sectionsOf (d : Doc) : List El :=
  groupbyFirsts (fun e => clean_heading_name e.text) ((scrubbed d).filter is_section_heading)

/-- `sanitize_html` from the source: remove furniture, delete
`body["onload"]` and all `script` elements, rewrite relative links to
`.html`, and - only when there are at least two `sections` - insert one Dash
anchor before each section. -/
def sanitize_html (d : Doc) : Doc :=
  { bodyOnload := none,
    els :=
      if 2 ≤ (sectionsOf d).length then anchorPass none (scrubbed d)
      else scrubbed d }

/-- A Dash anchor element, as counted in the anchor-emission laws. -/
def isAnchor (e : El) : Bool :=
  e.tag == "a" && e.classes.contains "dashAnchor"

/-- The number of Dash anchors in an element sequence. -/
def countAnchors (l : List El) : Nat :=
  l.countP (fun e => isAnchor e)

/-- The number of anchors `anchorPass prev` will insert: one per qualifying
heading opening a new run of equal cleaned names. -/
def runStarts : Option String → List El → Nat
  | _, [] => 0
  | prev, e :: rest =>
    if is_section_heading e then
      (if prev == some (clean_heading_name e.text) then 0 else 1) +
        runStarts (some (clean_heading_name e.text)) rest
    else runStarts prev rest

/-! ## Link/asset extraction (`download_and_process_page`) -/

/-- The page links collected before sanitization:
`resolve_url(page, x["href"]) for x in soup("a", href=is_relative_href)`. -/
def extract_page_links (page : String) (d : Doc) : List String :=
  d.els.filterMap
    (fun e =>
      match e.href with
      | some h2 => if e.tag = "a" ∧ is_relative_href (some h2) then some (resolve_url page h2) else none
      | none => none)

/-- The asset links collected before sanitization: stylesheet `href`s and
`img` `src`s, resolved against the page URL.  Note there is no
`is_relative_href` filter on this path in the source. -/
def extract_asset_links (page : String) (d : Doc) : List String :=
  d.els.filterMap
    (fun e => if e.tag = "link" ∧ e.rel.contains "stylesheet" then e.href.map (resolve_url page) else none)
  ++ d.els.filterMap
    (fun e => if e.tag = "img" then e.src.map (resolve_url page) else none)

/-! ## The fetch cache (`download_document`)

The on-disk cache is modelled as the set of tmp-file paths present, and the
remote server by a success predicate `ok` on URL paths.  A call returns the
local path and the updated file set, or `none` when the fetch raised
`requests.HTTPError` (`raise_for_status`); the boolean records whether a
network request was made. -/

/-- `TMP_DIR / Path(path).relative_to("/")`. -/
def tmp_path (path : String) : String :=
  "tmp/" ++ (if startsW path "/" then String.mk (path.data.drop 1) else path)

/-- `download_document` from the source: if the tmp file exists, return it
without a network call; otherwise issue the request (second component
`true`), and on success write the file. -/
def download_document (ok : String → Bool) (fs : Finset String) (path : String) :
    Option (String × Finset String) × Bool :=
  let t := tmp_path path
  if t ∈ fs then (some (t, fs), false)
  else if ok path then (some (t, insert t fs), true)
  else (none, true)

/-- A sequence of `download_document` calls within one run, threading the
file-set state; returns the final file set and the log of
(requested path, network request made) pairs. -/
def run_downloads (ok : String → Bool) : Finset String → List String → Finset String × List (String × Bool)
  | fs, [] => (fs, [])
  | fs, p :: rest =>
    let r := download_document ok fs p
    let fs1 := match r.1 with | some q => q.2 | none => fs
    let rc := run_downloads ok fs1 rest
    (rc.1, (p, r.2) :: rc.2)

/-- How many network requests a call log contains for the URL path `u`. -/
def fetchCount (u : String) (log : List (String × Bool)) : Nat :=
  log.countP (fun e => e.1 == u && e.2)

/-! ## The crawl loop (`crawl_pages`)

One loop iteration pops a page `p` from `queues.pages`, attempts
`download_and_process_page` (which unions the newly discovered page links
into `queues.pages` and the assets into `queues.assets`, and yields the
title), then adds `p` to `done_pages` and subtracts `done_pages` from
`queues.pages`.  On `requests.HTTPError` the failure is written to the error
stream and nothing else happens - the page is still marked done.  The remote
site is modelled by `fetch`, giving each page's title and discovered
links/assets, or `none` when the fetch fails. -/

structure PageData where
  title : String
  links : Finset String
  assets : Finset String
deriving DecidableEq

structure CrawlState where
  pending : Finset String
  assets : Finset String
  done : Finset String
  yielded : List (String × String)
  errors : List String
deriving DecidableEq

/-- One iteration of the `while queues.pages:` loop, popping `p`. -/
def crawlStep (fetch : String → Option PageData) (s : CrawlState) (p : String) : CrawlState :=
  match fetch p with
  | some d =>
    { pending := ((s.pending.erase p) ∪ d.links) \ insert p s.done,
      assets := s.assets ∪ d.assets,
      done := insert p s.done,
      yielded := s.yielded ++ [(d.title, p)],
      errors := s.errors }
  | none =>
    { pending := (s.pending.erase p) \ insert p s.done,
      assets := s.assets,
      done := insert p s.done,
      yielded := s.yielded,
      errors := s.errors ++ [p] }

/-- A possible execution of the crawl loop: `CrawlTrace fetch s tr s'` says
the loop can go from state `s` to state `s'` popping the pages `tr` in that
order.  The pop order is unconstrained (Python `set.pop`). -/
inductive CrawlTrace (fetch : String → Option PageData) : CrawlState → List String → CrawlState → Prop where
  | nil : ∀ s, CrawlTrace fetch s [] s
  | cons : ∀ s p rest s', p ∈ s.pending →
      CrawlTrace fetch (crawlStep fetch s p) rest s' → CrawlTrace fetch s (p :: rest) s'

/-- The crawl state on entry to `crawl_pages`: the seed pages are pending,
no assets or results yet, and `done_pages = {"/index.htm"}` so that page is
never downloaded. -/
def crawl_pages_init (seeds : Finset String) : CrawlState :=
  { pending := seeds, assets := ∅, done := {"/index.htm"}, yielded := [], errors := [] }

/-! ## Concrete inputs used by the witnesses and counterexamples -/

/-- A page document holding just one relative link. -/
def wDocLink : Doc :=
  { bodyOnload := some "resizeBody()",
    els := [{ tag := "a", classes := [], href := some "x.htm", src := none, rel := [],
              nameAttr := none, text := "link" }] }

/-- An `h4` section heading with text `Syntax`. -/
def wHeadA : El :=
  { tag := "h4", classes := [], href := none, src := none, rel := [], nameAttr := none,
    text := "Syntax" }

/-- An `h4` section heading with text `Details`. -/
def wHeadB : El :=
  { tag := "h4", classes := [], href := none, src := none, rel := [], nameAttr := none,
    text := "Details" }

/-- A page with two consecutive identical qualifying headings. -/
def wDocAA : Doc := { bodyOnload := none, els := [wHeadA, wHeadA] }

/-- A page with two distinct qualifying headings. -/
def wDocAB : Doc := { bodyOnload := none, els := [wHeadA, wHeadB] }

/-- A plain paragraph element. -/
def wPara : El :=
  { tag := "p", classes := [], href := none, src := none, rel := [], nameAttr := none,
    text := "Some text." }

/-- A script element. -/
def wScript : El :=
  { tag := "script", classes := [], href := none, src := some "x.js", rel := [],
    nameAttr := none, text := "" }

/-- A page with an onload handler, a paragraph and a script. -/
def wDocPS : Doc := { bodyOnload := some "resizeBody()", els := [wPara, wScript] }

/-- A page with one on-site link and one off-site link. -/
def wDocNine : Doc :=
  { bodyOnload := none,
    els := [{ tag := "a", classes := [], href := some "b.htm", src := none, rel := [],
              nameAttr := none, text := "b" },
            { tag := "a", classes := [], href := some "http://example.com/x", src := none,
              rel := [], nameAttr := none, text := "x" }] }

/-- A page with an off-site image. -/
def wDocNineC : Doc :=
  { bodyOnload := none,
    els := [{ tag := "img", classes := [], href := none,
              src := some "http://example.com/x.png", rel := [], nameAttr := none,
              text := "" }] }

/-- A remote site on which every fetch fails. -/
def wFetchFail : String → Option PageData := fun _ => none

/-- A remote site on which exactly the page `/Content/bad.htm` fails. -/
def wFetchBad : String → Option PageData :=
  fun q => if q = "/Content/bad.htm" then none else some { title := "T", links := ∅, assets := ∅ }

/-- A crawl state with one seed page and `/index.htm` already done. -/
def wSA : CrawlState :=
  { pending := {"/Content/a.htm"}, assets := ∅, done := {"/index.htm"}, yielded := [],
    errors := [] }

/-- A crawl state with a failing page and a good page pending. -/
def wSB : CrawlState :=
  { pending := {"/Content/bad.htm", "/Content/ok.htm"}, assets := ∅, done := ∅, yielded := [],
    errors := [] }

/-! ## Helper lemmas: crawl loop -/

theorem crawlStep_done (fetch : String → Option PageData) (s : CrawlState) (p : String) :
    (crawlStep fetch s p).done = insert p s.done := by
  unfold crawlStep; cases fetch p <;> rfl

theorem crawlStep_disj (fetch : String → Option PageData) (s : CrawlState) (p : String) :
    ∀ q ∈ (crawlStep fetch s p).done, q ∉ (crawlStep fetch s p).pending := by
  intro q hqd hqp
  cases h : fetch p <;>
    simp only [crawlStep, h, Finset.mem_sdiff] at hqd hqp <;> exact hqp.2 hqd

theorem trace_done_mono {fetch : String → Option PageData} {s : CrawlState} {tr : List String}
    {s' : CrawlState} (h : CrawlTrace fetch s tr s') : s.done ⊆ s'.done := by
  induction h with
  | nil => exact Finset.Subset.refl _
  | cons t p rest t' hp htr ih =>
    refine Finset.Subset.trans ?_ ih
    rw [crawlStep_done]
    exact Finset.subset_insert _ _

theorem trace_popped_not_done {fetch : String → Option PageData} {s : CrawlState}
    {tr : List String} {s' : CrawlState} (h : CrawlTrace fetch s tr s')
    (hdisj : ∀ q ∈ s.done, q ∉ s.pending) : ∀ p ∈ tr, p ∉ s.done := by
  induction h with
  | nil => intro p hp; cases hp
  | cons t p rest t' hp htr ih =>
    intro q hq hqd
    rcases List.mem_cons.mp hq with rfl | hq'
    · exact hdisj q hqd hp
    · have := ih (crawlStep_disj fetch t p) q hq'
      rw [crawlStep_done] at this
      exact this (Finset.mem_insert_of_mem hqd)

theorem trace_nodup {fetch : String → Option PageData} {s : CrawlState} {tr : List String}
    {s' : CrawlState} (h : CrawlTrace fetch s tr s')
    (hdisj : ∀ q ∈ s.done, q ∉ s.pending) : tr.Nodup := by
  induction h with
  | nil => exact List.nodup_nil
  | cons t p rest t' hp htr ih =>
    refine List.nodup_cons.mpr ⟨?_, ih (crawlStep_disj fetch t p)⟩
    intro hmem
    have := trace_popped_not_done htr (crawlStep_disj fetch t p) p hmem
    rw [crawlStep_done] at this
    exact this (Finset.mem_insert_self _ _)

theorem trace_disj_final {fetch : String → Option PageData} {s : CrawlState} {tr : List String}
    {s' : CrawlState} (h : CrawlTrace fetch s tr s')
    (hdisj : ∀ q ∈ s.done, q ∉ s.pending) : ∀ q ∈ s'.done, q ∉ s'.pending := by
  induction h with
  | nil => exact hdisj
  | cons t p rest t' hp htr ih => exact ih (crawlStep_disj fetch t p)

theorem trace_yield_src {fetch : String → Option PageData} {s : CrawlState} {tr : List String}
    {s' : CrawlState} (h : CrawlTrace fetch s tr s') :
    ∀ pr ∈ s'.yielded, pr ∈ s.yielded ∨ pr.2 ∈ tr := by
  induction h with
  | nil => intro pr hpr; exact Or.inl hpr
  | cons t p rest t' hp htr ih =>
    intro pr hpr
    rcases ih pr hpr with hy | htr'
    · cases hfp : fetch p with
      | some d =>
        simp only [crawlStep, hfp, List.mem_append, List.mem_singleton] at hy
        rcases hy with hy | rfl
        · exact Or.inl hy
        · exact Or.inr (List.mem_cons_self _ _)
      | none =>
        simp only [crawlStep, hfp] at hy
        exact Or.inl hy
    · exact Or.inr (List.mem_cons_of_mem _ htr')

theorem crawl_completes (fetch : String → Option PageData) (world : Finset String)
    (hl : ∀ q d, fetch q = some d → d.links ⊆ world) :
    ∀ n (s : CrawlState), s.pending ⊆ world → (∀ q ∈ s.done, q ∉ s.pending) →
      (world \ s.done).card ≤ n →
      ∃ tr s', CrawlTrace fetch s tr s' ∧ s'.pending = ∅ := by
  intro n
  induction n with
  | zero =>
    intro s hsub hdisj hcard
    refine ⟨[], s, CrawlTrace.nil s, ?_⟩
    by_contra hne
    obtain ⟨p, hp⟩ := Finset.nonempty_iff_ne_empty.mpr hne
    have hpw : p ∈ world \ s.done :=
      Finset.mem_sdiff.mpr ⟨hsub hp, fun hd => hdisj p hd hp⟩
    have : 0 < (world \ s.done).card := Finset.card_pos.mpr ⟨p, hpw⟩
    omega
  | succ n ih =>
    intro s hsub hdisj hcard
    by_cases hne : s.pending = ∅
    · exact ⟨[], s, CrawlTrace.nil s, hne⟩
    · obtain ⟨p, hp⟩ := Finset.nonempty_iff_ne_empty.mpr hne
      have hpw : p ∈ world \ s.done :=
        Finset.mem_sdiff.mpr ⟨hsub hp, fun hd => hdisj p hd hp⟩
      have hsub1 : (crawlStep fetch s p).pending ⊆ world := by
        intro q hq
        cases hfp : fetch p with
        | some d =>
          simp only [crawlStep, hfp, Finset.mem_sdiff, Finset.mem_union] at hq
          rcases hq.1 with hq1 | hq1
          · exact hsub (Finset.mem_of_mem_erase hq1)
          · exact hl p d hfp hq1
        | none =>
          simp only [crawlStep, hfp, Finset.mem_sdiff] at hq
          exact hsub (Finset.mem_of_mem_erase hq.1)
      have hcard1 : (world \ (crawlStep fetch s p).done).card ≤ n := by
        rw [crawlStep_done]
        have hss : world \ insert p s.done ⊂ world \ s.done := by
          refine (Finset.ssubset_iff_of_subset ?_).mpr ⟨p, hpw, ?_⟩
          · intro q hq
            rw [Finset.mem_sdiff] at hq ⊢
            exact ⟨hq.1, fun hd => hq.2 (Finset.mem_insert_of_mem hd)⟩
          · simp [Finset.mem_sdiff]
        have := Finset.card_lt_card hss
        omega
      obtain ⟨tr, s', htr, hEmp⟩ := ih (crawlStep fetch s p) hsub1 (crawlStep_disj fetch s p) hcard1
      exact ⟨p :: tr, s', CrawlTrace.cons s p tr s' hp htr, hEmp⟩

/-! ## Helper lemmas: sanitizer -/

theorem rewriteLink_tag (e : El) : (rewriteLink e).tag = e.tag := by
  unfold rewriteLink; split <;> rfl

theorem rewriteLink_classes (e : El) : (rewriteLink e).classes = e.classes := by
  unfold rewriteLink; split <;> rfl

theorem isAnchor_rewriteLink (e : El) : isAnchor (rewriteLink e) = isAnchor e := by
  unfold isAnchor
  rw [rewriteLink_tag, rewriteLink_classes]

theorem isFurniture_rewriteLink (e : El) : isFurniture (rewriteLink e) = isFurniture e := by
  unfold isFurniture
  rw [rewriteLink_classes]

theorem heading_rewriteLink (e : El) : is_section_heading (rewriteLink e) = is_section_heading e := by
  unfold rewriteLink; split <;> rfl

theorem isAnchor_anchorFor (e : El) : isAnchor (anchorFor e) = true := rfl

theorem mem_scrubbed {d : Doc} {e : El} (h : e ∈ scrubbed d) :
    ∃ x ∈ d.els, e = rewriteLink x ∧ isFurniture x = false ∧ x.tag ≠ "script" := by
  unfold scrubbed at h
  obtain ⟨x, hx, rfl⟩ := List.mem_map.mp h
  obtain ⟨hx1, hx2⟩ := List.mem_filter.mp hx
  obtain ⟨hx0, hx3⟩ := List.mem_filter.mp hx1
  refine ⟨x, hx0, rfl, ?_, ?_⟩
  · simpa using hx3
  · intro hc
    simp [hc] at hx2

theorem scrubbed_no_script {d : Doc} {e : El} (h : e ∈ scrubbed d) : e.tag ≠ "script" := by
  obtain ⟨x, _, rfl, _, hx⟩ := mem_scrubbed h
  rw [rewriteLink_tag]; exact hx

theorem scrubbed_no_furniture {d : Doc} {e : El} (h : e ∈ scrubbed d) :
    isFurniture e = false := by
  obtain ⟨x, _, rfl, hx, _⟩ := mem_scrubbed h
  rw [isFurniture_rewriteLink]; exact hx

theorem mem_anchorPass {l : List El} {prev : Option String} {a : El}
    (h : a ∈ anchorPass prev l) : a ∈ l ∨ ∃ e, a = anchorFor e := by
  induction l generalizing prev with
  | nil => simp [anchorPass] at h
  | cons e rest ih =>
    by_cases hh : is_section_heading e
    · by_cases hk : prev == some (clean_heading_name e.text)
      · simp only [anchorPass, hh, hk, if_true, if_pos] at h
        rcases List.mem_cons.mp h with rfl | h'
        · exact Or.inl (List.mem_cons_self _ _)
        · rcases ih h' with h'' | h''
          · exact Or.inl (List.mem_cons_of_mem _ h'')
          · exact Or.inr h''
      · simp only [anchorPass, hh, hk, if_true, if_neg, Bool.not_eq_true] at h
        rcases List.mem_cons.mp h with rfl | h'
        · exact Or.inr ⟨e, rfl⟩
        · rcases List.mem_cons.mp h' with rfl | h''
          · exact Or.inl (List.mem_cons_self _ _)
          · rcases ih h'' with h3 | h3
            · exact Or.inl (List.mem_cons_of_mem _ h3)
            · exact Or.inr h3
    · simp only [anchorPass, hh, if_neg, Bool.not_eq_true] at h
      rcases List.mem_cons.mp h with rfl | h'
      · exact Or.inl (List.mem_cons_self _ _)
      · rcases ih h' with h'' | h''
        · exact Or.inl (List.mem_cons_of_mem _ h'')
        · exact Or.inr h''

theorem countAnchors_anchorPass (l : List El) :
    ∀ prev, countAnchors (anchorPass prev l) = runStarts prev l + countAnchors l := by
  induction l with
  | nil => intro prev; simp [anchorPass, runStarts, countAnchors]
  | cons e rest ih =>
    intro prev
    by_cases hh : is_section_heading e
    · by_cases hk : prev == some (clean_heading_name e.text)
      · simp only [anchorPass, runStarts, hh, hk, if_true, if_pos, countAnchors,
          List.countP_cons]
        have := ih (some (clean_heading_name e.text))
        unfold countAnchors at this
        omega
      · simp only [anchorPass, runStarts, hh, hk, if_true, if_neg, Bool.not_eq_true,
          countAnchors, List.countP_cons, isAnchor_anchorFor]
        have := ih (some (clean_heading_name e.text))
        unfold countAnchors at this
        simp only [this]
        omega
    · simp only [anchorPass, runStarts, hh, if_neg, Bool.not_eq_true, countAnchors,
        List.countP_cons]
      have := ih prev
      unfold countAnchors at this
      omega

theorem runStarts_filter (l : List El) :
    ∀ prev, runStarts prev l = runStarts prev (l.filter is_section_heading) := by
  induction l with
  | nil => intro prev; rfl
  | cons e rest ih =>
    intro prev
    by_cases hh : is_section_heading e
    · simp only [runStarts, hh, if_true, List.filter_cons_of_pos hh, ih]
    · rw [Bool.not_eq_true] at hh
      have hf : List.filter is_section_heading (e :: rest) = List.filter is_section_heading rest :=
        List.filter_cons_of_neg (by simp [hh])
      simp only [runStarts, hh, hf, ih, Bool.false_eq_true, if_false]

theorem groupbyFirstsAux_length_le (key : El → String) (l : List El) :
    ∀ k, (groupbyFirstsAux key k l).length ≤ l.length := by
  induction l with
  | nil => intro k; simp [groupbyFirstsAux]
  | cons y ys ih =>
    intro k
    by_cases h : (key y == k) = true
    · simp only [groupbyFirstsAux]
      rw [if_pos h]
      exact le_trans (ih k) (by simp)
    · simp only [groupbyFirstsAux]
      rw [if_neg h]
      simp only [List.length_cons]
      exact Nat.succ_le_succ (ih (key y))

theorem groupbyFirsts_length_le (key : El → String) (l : List El) :
    (groupbyFirsts key l).length ≤ l.length := by
  cases l with
  | nil => simp [groupbyFirsts]
  | cons x xs =>
    simp only [groupbyFirsts, List.length_cons]
    exact Nat.succ_le_succ (groupbyFirstsAux_length_le key xs (key x))

theorem groupbyFirstsAux_runStarts :
    ∀ (l : List El), (∀ e ∈ l, is_section_heading e = true) →
      ∀ k, (groupbyFirstsAux (fun e => clean_heading_name e.text) k l).length
        = runStarts (some k) l := by
  intro l
  induction l with
  | nil => intro _ k; rfl
  | cons y ys ih =>
    intro hall k
    have hy := hall y (List.mem_cons_self _ _)
    have hys : ∀ e ∈ ys, is_section_heading e = true :=
      fun e he => hall e (List.mem_cons_of_mem _ he)
    simp only [groupbyFirstsAux, runStarts, hy, if_true]
    by_cases h : clean_heading_name y.text = k
    · rw [if_pos (by simp [h]), if_pos (by simp [h]), h]
      simpa using ih hys k
    · rw [if_neg (by simp [h]),
        if_neg (by simp only [beq_iff_eq, Option.some.injEq]; exact fun hc => h hc.symm)]
      simp only [List.length_cons, ih hys (clean_heading_name y.text)]
      omega

theorem groupbyFirsts_length_eq (l : List El)
    (hall : ∀ e ∈ l, is_section_heading e = true) :
    (groupbyFirsts (fun e => clean_heading_name e.text) l).length = runStarts none l := by
  cases l with
  | nil => rfl
  | cons x xs =>
    have hx := hall x (List.mem_cons_self _ _)
    have hxs : ∀ e ∈ xs, is_section_heading e = true :=
      fun e he => hall e (List.mem_cons_of_mem _ he)
    simp only [groupbyFirsts, List.length_cons, runStarts, hx, if_true]
    rw [if_neg (by simp), groupbyFirstsAux_runStarts xs hxs (clean_heading_name x.text)]
    omega

theorem countAnchors_scrubbed {d : Doc} (hcl : countAnchors d.els = 0) :
    countAnchors (scrubbed d) = 0 := by
  unfold countAnchors at *
  rw [List.countP_eq_zero] at *
  intro e he
  obtain ⟨x, hx, rfl, _, _⟩ := mem_scrubbed he
  rw [isAnchor_rewriteLink]
  exact hcl x hx

/-! ## Helper lemmas: fetch cache -/

theorem run_downloads_cached (ok : String → Bool) (u : String) :
    ∀ (calls : List String) (fs : Finset String), tmp_path u ∈ fs →
      fetchCount u (run_downloads ok fs calls).2 = 0 := by
  intro calls
  induction calls with
  | nil => intro fs _; rfl
  | cons p rest ih =>
    intro fs hmem
    by_cases hpu : p = u
    · subst hpu
      simp only [run_downloads, download_document, hmem, if_pos]
      simp only [fetchCount, List.countP_cons]
      have := ih fs hmem
      simp only [fetchCount] at this
      simp [this]
    · have hne : (p == u) = false := by simp [hpu]
      by_cases hp : tmp_path p ∈ fs
      · simp only [run_downloads, download_document, hp, if_pos]
        simp only [fetchCount, List.countP_cons]
        have := ih fs hmem
        simp only [fetchCount] at this
        simp [this, hne]
      · by_cases hok : ok p = true
        · simp only [run_downloads, download_document, hp, hok, if_neg, if_pos, if_true]
          simp only [fetchCount, List.countP_cons]
          have := ih (insert (tmp_path p) fs) (Finset.mem_insert_of_mem hmem)
          simp only [fetchCount] at this
          simp [this, hne]
        · have hokf : ok p = false := by simpa using hok
          simp only [run_downloads, download_document, hp, hokf, if_neg, if_false]
          simp only [fetchCount, List.countP_cons]
          have := ih fs hmem
          simp only [fetchCount] at this
          simp [this, hne]

theorem run_downloads_le_one (ok : String → Bool) (u : String) (hok : ok u = true) :
    ∀ (calls : List String) (fs : Finset String),
      fetchCount u (run_downloads ok fs calls).2 ≤ 1 := by
  intro calls
  induction calls with
  | nil => intro fs; simp [run_downloads, fetchCount]
  | cons p rest ih =>
    intro fs
    by_cases hpu : p = u
    · subst hpu
      by_cases hp : tmp_path p ∈ fs
      · simp only [run_downloads, download_document, hp, if_pos]
        simp only [fetchCount, List.countP_cons]
        have h0 := run_downloads_cached ok p rest fs hp
        simp only [fetchCount] at h0
        simp [h0]
      · simp only [run_downloads, download_document, hp, hok, if_neg, if_pos, if_true]
        simp only [fetchCount, List.countP_cons]
        have h0 := run_downloads_cached ok p rest (insert (tmp_path p) fs)
          (Finset.mem_insert_self _ _)
        simp only [fetchCount] at h0
        simp [h0]
    · have hne : (p == u) = false := by simp [hpu]
      by_cases hp : tmp_path p ∈ fs
      · simp only [run_downloads, download_document, hp, if_pos]
        simp only [fetchCount, List.countP_cons]
        have := ih fs
        simp only [fetchCount] at this
        simp [this, hne]
      · by_cases hokp : ok p = true
        · simp only [run_downloads, download_document, hp, hokp, if_neg, if_pos, if_true]
          simp only [fetchCount, List.countP_cons]
          have := ih (insert (tmp_path p) fs)
          simp only [fetchCount] at this
          simp [this, hne]
        · have hokf : ok p = false := by simpa using hokp
          simp only [run_downloads, download_document, hp, hokf, if_neg, if_false]
          simp only [fetchCount, List.countP_cons]
          have := ih fs
          simp only [fetchCount] at this
          simp [this, hne]

/-! ## Membership in the sanitized element sequence -/

theorem sanitize_els_mem {d : Doc} {e : El} (h : e ∈ (sanitize_html d).els) :
    e ∈ scrubbed d ∨ ∃ x, e = anchorFor x := by
  have hels : (sanitize_html d).els =
      (if 2 ≤ (sectionsOf d).length then anchorPass none (scrubbed d) else scrubbed d) := rfl
  rw [hels] at h
  split at h
  · exact mem_anchorPass h
  · exact Or.inl h

/-! ## Claim theorems -/

/-- C1, counterexample: sanitization is not idempotent.  On a page holding a
single relative link `x.htm`, the first run rewrites the `href` to `x.html`
and the second run rewrites it again to `x.htmll`, so running `sanitize_html`
on its own output changes the document. -/
theorem sanitize_second_run_changes :
    sanitize_html (sanitize_html wDocLink) ≠ sanitize_html wDocLink
    ∧ (sanitize_html wDocLink).els.map (fun e => e.href) = [some "x.html"]
    ∧ (sanitize_html (sanitize_html wDocLink)).els.map (fun e => e.href) = [some "x.htmll"] := by
  refine ⟨?_, ?_, ?_⟩ <;> decide

/-- C1 (amended): the removal passes of `sanitize_html` are exhaustive - one
run leaves no `onload` attribute, no `script` elements and no furniture
elements, so a second run has no scripts or furniture left to strip; the
`href` rewrite and the anchor insertion, however, are not idempotent (see the
counterexample). -/
theorem sanitize_removals (d : Doc) :
    (sanitize_html d).bodyOnload = none
    ∧ (∀ e ∈ (sanitize_html d).els, e.tag ≠ "script")
    ∧ (∀ e ∈ (sanitize_html d).els, isFurniture e = false) := by
  refine ⟨rfl, ?_, ?_⟩
  · intro e he
    rcases sanitize_els_mem he with h | ⟨x, rfl⟩
    · exact scrubbed_no_script h
    · intro hc
      simp [anchorFor] at hc
  · intro e he
    rcases sanitize_els_mem he with h | ⟨x, rfl⟩
    · exact scrubbed_no_furniture h
    · rfl

/-- Witness for C1's amended theorem at a concrete page (an `onload`
handler, a paragraph and a script element). -/
theorem sanitize_removals_witness :
    (sanitize_html wDocPS).bodyOnload = none ∧ (rewriteLink wPara).tag ≠ "script" :=
  ⟨(sanitize_removals wDocPS).1,
   (sanitize_removals wDocPS).2.1 (rewriteLink wPara) (by decide)⟩

/-- C2: a relative link `x.htm#frag` on page `/Content/a/b.htm` resolves by
extraction to `/Content/a/x.htm`, the index builder's rewrite turns that
into `/Content/a/x.html`, and the sanitizer rewrites the on-page `href`
attribute to `x.html#frag`, which resolves against the same page to the same
target `/Content/a/x.html`. -/
theorem link_extension_roundtrip :
    resolve_url "/Content/a/b.htm" "x.htm#frag" = "/Content/a/x.htm"
    ∧ index_path_rewrite (resolve_url "/Content/a/b.htm" "x.htm#frag") = "/Content/a/x.html"
    ∧ is_relative_href (some "x.htm#frag") = true
    ∧ (rewriteLink ⟨"a", [], some "x.htm#frag", none, [], none, "link"⟩).href
        = some "x.html#frag"
    ∧ resolve_url "/Content/a/b.htm" "x.html#frag" = "/Content/a/x.html" := by
  refine ⟨?_, ?_, ?_, ?_, ?_⟩ <;> decide

/-- C3: along any trace of the crawl loop started with pending and done
disjoint, (i) done pages are never pending again, (ii) the done set only
grows, (iii) no page is popped (fetched/processed) twice, regardless of the
pop order, (iv) pages already done are never popped, and (v) a further loop
iteration is possible exactly when the pending set is nonempty, i.e. the
crawl terminates exactly when the frontier is empty. -/
theorem crawl_frontier_invariant (fetch : String → Option PageData) (s0 : CrawlState)
    (tr : List String) (s1 : CrawlState) (h : CrawlTrace fetch s0 tr s1)
    (hdisj : ∀ q ∈ s0.done, q ∉ s0.pending) :
    (∀ q ∈ s1.done, q ∉ s1.pending)
    ∧ s0.done ⊆ s1.done
    ∧ tr.Nodup
    ∧ (∀ p ∈ tr, p ∉ s0.done)
    ∧ ((∃ p s2, CrawlTrace fetch s1 [p] s2) ↔ s1.pending ≠ ∅) := by
  refine ⟨trace_disj_final h hdisj, trace_done_mono h, trace_nodup h hdisj,
    trace_popped_not_done h hdisj, ?_⟩
  constructor
  · rintro ⟨p, s2, hstep⟩
    cases hstep with
    | cons _ _ _ _ hp _ =>
      intro hc
      rw [hc] at hp
      exact Finset.not_mem_empty p hp
  · intro hne
    obtain ⟨p, hp⟩ := Finset.nonempty_iff_ne_empty.mpr hne
    exact ⟨p, crawlStep fetch s1 p, CrawlTrace.cons _ _ _ _ hp (CrawlTrace.nil _)⟩

/-- Witness for C3 on a concrete one-step crawl. -/
theorem crawl_frontier_invariant_witness :
    (∀ q ∈ (crawlStep wFetchFail wSA "/Content/a.htm").done,
        q ∉ (crawlStep wFetchFail wSA "/Content/a.htm").pending)
    ∧ wSA.done ⊆ (crawlStep wFetchFail wSA "/Content/a.htm").done
    ∧ (["/Content/a.htm"] : List String).Nodup
    ∧ (∀ p ∈ ["/Content/a.htm"], p ∉ wSA.done)
    ∧ ((∃ p s2, CrawlTrace wFetchFail (crawlStep wFetchFail wSA "/Content/a.htm") [p] s2)
        ↔ (crawlStep wFetchFail wSA "/Content/a.htm").pending ≠ ∅) :=
  crawl_frontier_invariant wFetchFail wSA ["/Content/a.htm"]
    (crawlStep wFetchFail wSA "/Content/a.htm")
    (CrawlTrace.cons _ _ _ _ (by decide) (CrawlTrace.nil _))
    (by decide)

/-- C4, counterexample: the source tests for the substring `" Event"` (with
a leading space), not for the word `Event`.  The title `Event` contains the
word `Event` but classifies as `Method`, so "Event if the title contains the
word Event" is false as stated. -/
theorem entry_type_word_event_cex :
    titleContainsWordEvent "Event" = true
    ∧ strContainsB "GUI/MethodOrEvents/Click.htm" "GUI/MethodOrEvents" = true
    ∧ get_entry_type "GUI/MethodOrEvents/Click.htm" "Event" = some "Method" := by
  refine ⟨?_, ?_, ?_⟩ <;> decide

/-- C4 (amended): special cases run before the prefix table.  A path
containing `GUI/MethodOrEvents` classifies as `Event` when the title
contains `" Event"` (the word `Event` preceded by a space) and as `Method`
otherwise; a path containing the configuration-parameters segment classifies
as `Setting`, even though the `UserGuide` prefix of the table also matches
such a path; otherwise the result is the value of the first prefix in the
ordered `ENTRY_TYPES` table that is a substring of the path. -/
theorem get_entry_type_precedence (path title : String) :
    (strContainsB path "GUI/MethodOrEvents" = true → strContainsB title " Event" = true →
       get_entry_type path title = some "Event")
    ∧ (strContainsB path "GUI/MethodOrEvents" = true → strContainsB title " Event" = false →
       get_entry_type path title = some "Method")
    ∧ (strContainsB path "GUI/MethodOrEvents" = false →
       strContainsB path "UserGuide/Installation and Configuration/Configuration Parameters" = true →
       get_entry_type path title = some "Setting" ∧ strContainsB path "UserGuide" = true)
    ∧ (strContainsB path "GUI/MethodOrEvents" = false →
       strContainsB path "UserGuide/Installation and Configuration/Configuration Parameters" = false →
       get_entry_type path title =
         (ENTRY_TYPES.find? (fun kv => strContainsB path kv.1)).map (fun kv => kv.2)) := by
  refine ⟨fun h1 h2 => ?_, fun h1 h2 => ?_, fun h1 h2 => ⟨?_, ?_⟩, fun h1 h2 => ?_⟩
  · simp [get_entry_type, h1, h2]
  · simp [get_entry_type, h1, h2]
  · simp [get_entry_type, h1, h2]
  · exact strContainsB_trans h2 (by decide)
  · simp [get_entry_type, h1, h2]

/-- Witness for C4's amended theorem on the spec's own examples. -/
theorem get_entry_type_precedence_witness :
    get_entry_type "GUI/MethodOrEvents/Click.htm" "Click Event" = some "Event"
    ∧ get_entry_type "GUI/MethodOrEvents/Click.htm" "Click" = some "Method"
    ∧ get_entry_type
        "UserGuide/Installation and Configuration/Configuration Parameters/Foo.htm" "Foo"
        = some "Setting" :=
  ⟨(get_entry_type_precedence "GUI/MethodOrEvents/Click.htm" "Click Event").1
      (by decide) (by decide),
   (get_entry_type_precedence "GUI/MethodOrEvents/Click.htm" "Click").2.1
      (by decide) (by decide),
   ((get_entry_type_precedence
        "UserGuide/Installation and Configuration/Configuration Parameters/Foo.htm" "Foo").2.2.1
      (by decide) (by decide)).1⟩

/-- C5: when a path contains neither special-case segment and none of the
`ENTRY_TYPES` prefixes, `get_entry_type` has no answer: the Python `next`
call raises `StopIteration`, a fatal error, modelled by `none` - no default
entry type is returned. -/
theorem get_entry_type_no_match_fatal (path title : String)
    (h1 : strContainsB path "GUI/MethodOrEvents" = false)
    (h2 : strContainsB path "UserGuide/Installation and Configuration/Configuration Parameters" = false)
    (h3 : ∀ kv ∈ ENTRY_TYPES, strContainsB path kv.1 = false) :
    get_entry_type path title = none := by
  have hfind : ENTRY_TYPES.find? (fun kv => strContainsB path kv.1) = none :=
    List.find?_eq_none.mpr (fun kv hkv => by simp [h3 kv hkv])
  simp [get_entry_type, h1, h2, hfind]

/-- Witness for C5 at a concrete unclassifiable path. -/
theorem get_entry_type_no_match_fatal_witness :
    get_entry_type "/Foo/Bar.htm" "Baz" = none :=
  get_entry_type_no_match_fatal "/Foo/Bar.htm" "Baz" (by decide) (by decide) (by decide)

/-- C6: when the fetch of a pending page `p` fails, the loop iteration
appends the failure to the error log, marks `p` done, yields nothing for it,
leaves `p` out of the pending set (no retry), keeps every other pending page
pending, and the crawl still runs to completion - a state with an empty
frontier is reached, i.e. the run exits successfully once the frontier is
drained (the asset queue is a finite set processed by a terminating loop). -/
theorem fetch_failure_handling (fetch : String → Option PageData) (world : Finset String)
    (s : CrawlState) (p : String)
    (hfail : fetch p = none) (hp : p ∈ s.pending)
    (hdisj : ∀ q ∈ s.done, q ∉ s.pending)
    (hsub : s.pending ⊆ world)
    (hl : ∀ q d, fetch q = some d → d.links ⊆ world) :
    (crawlStep fetch s p).errors = s.errors ++ [p]
    ∧ (crawlStep fetch s p).done = insert p s.done
    ∧ (crawlStep fetch s p).yielded = s.yielded
    ∧ p ∉ (crawlStep fetch s p).pending
    ∧ (∀ q ∈ s.pending, q ≠ p → q ∈ (crawlStep fetch s p).pending)
    ∧ ∃ tr s2, CrawlTrace fetch (crawlStep fetch s p) tr s2 ∧ s2.pending = ∅ := by
  refine ⟨?_, crawlStep_done fetch s p, ?_, ?_, ?_, ?_⟩
  · simp [crawlStep, hfail]
  · simp [crawlStep, hfail]
  · intro hc
    exact crawlStep_disj fetch s p p
      (by rw [crawlStep_done]; exact Finset.mem_insert_self _ _) hc
  · intro q hq hqp
    simp only [crawlStep, hfail, Finset.mem_sdiff, Finset.mem_erase, Finset.mem_insert]
    refine ⟨⟨hqp, hq⟩, ?_⟩
    rintro (rfl | hqd)
    · exact hqp rfl
    · exact hdisj q hqd hq
  · have hsub1 : (crawlStep fetch s p).pending ⊆ world := by
      intro q hq
      simp only [crawlStep, hfail, Finset.mem_sdiff] at hq
      exact hsub (Finset.mem_of_mem_erase hq.1)
    exact crawl_completes fetch world hl _ (crawlStep fetch s p) hsub1
      (crawlStep_disj fetch s p) (le_refl _)

/-- Witness for C6 on a concrete crawl where `/Content/bad.htm` fails and
`/Content/ok.htm` succeeds. -/
theorem fetch_failure_handling_witness :
    (crawlStep wFetchBad wSB "/Content/bad.htm").errors = wSB.errors ++ ["/Content/bad.htm"]
    ∧ (crawlStep wFetchBad wSB "/Content/bad.htm").done = insert "/Content/bad.htm" wSB.done
    ∧ (crawlStep wFetchBad wSB "/Content/bad.htm").yielded = wSB.yielded
    ∧ "/Content/bad.htm" ∉ (crawlStep wFetchBad wSB "/Content/bad.htm").pending
    ∧ (∀ q ∈ wSB.pending, q ≠ "/Content/bad.htm" →
        q ∈ (crawlStep wFetchBad wSB "/Content/bad.htm").pending)
    ∧ ∃ tr s2, CrawlTrace wFetchBad (crawlStep wFetchBad wSB "/Content/bad.htm") tr s2
        ∧ s2.pending = ∅ :=
  fetch_failure_handling wFetchBad {"/Content/bad.htm", "/Content/ok.htm"} wSB
    "/Content/bad.htm" (by decide) (by decide) (by decide) (by decide)
    (fun q d hq => by
      unfold wFetchBad at hq
      split at hq
      · exact absurd hq (by simp)
      · injection hq with h2
        rw [← h2]
        exact Finset.empty_subset _)

/-- C7, counterexample: a page whose only qualifying headings are two
consecutive identical ones has one maximal run, yet zero anchors are
emitted - the `len(sections) >= 2` guard counts deduplicated sections, not
qualifying headings, so "exactly one anchor per maximal run" fails as
stated. -/
theorem anchor_two_identical_headings_cex :
    ((scrubbed wDocAA).filter is_section_heading).length = 2
    ∧ (sectionsOf wDocAA).length = 1
    ∧ countAnchors (sanitize_html wDocAA).els = 0 := by
  refine ⟨?_, ?_, ?_⟩ <;> decide

/-- C7 (amended): on a page with no pre-existing Dash anchors, the sanitizer
emits exactly one anchor per maximal run of consecutive same-text qualifying
headings (= `(sectionsOf d).length`) when there are at least two such
deduplicated sections, and zero anchors otherwise; in particular a page with
fewer than two qualifying headings gets zero anchors. -/
theorem anchor_emission_law (d : Doc) (hcl : countAnchors d.els = 0) :
    countAnchors (sanitize_html d).els =
      (if 2 ≤ (sectionsOf d).length then (sectionsOf d).length else 0)
    ∧ (((scrubbed d).filter is_section_heading).length < 2 →
       countAnchors (sanitize_html d).els = 0) := by
  have hs0 : countAnchors (scrubbed d) = 0 := countAnchors_scrubbed hcl
  have hall : ∀ e ∈ (scrubbed d).filter is_section_heading, is_section_heading e = true :=
    fun e he => (List.mem_filter.mp he).2
  have hcount : countAnchors (anchorPass none (scrubbed d)) = (sectionsOf d).length := by
    rw [countAnchors_anchorPass (scrubbed d) none, hs0, runStarts_filter (scrubbed d) none,
      ← groupbyFirsts_length_eq _ hall]
    unfold sectionsOf
    omega
  have hels : (sanitize_html d).els =
      (if 2 ≤ (sectionsOf d).length then anchorPass none (scrubbed d) else scrubbed d) := rfl
  have hle : (sectionsOf d).length ≤ ((scrubbed d).filter is_section_heading).length := by
    unfold sectionsOf
    exact groupbyFirsts_length_le _ _
  constructor
  · rw [hels]
    by_cases hge : 2 ≤ (sectionsOf d).length
    · rw [if_pos hge, if_pos hge, hcount]
    · rw [if_neg hge, if_neg hge, hs0]
  · intro hlt
    rw [hels, if_neg (by omega)]
    exact hs0

/-- Witness for C7's amended theorem on a page with two distinct headings. -/
theorem anchor_emission_law_witness :
    countAnchors wDocAB.els = 0
    ∧ countAnchors (sanitize_html wDocAB).els =
        (if 2 ≤ (sectionsOf wDocAB).length then (sectionsOf wDocAB).length else 0) :=
  ⟨by decide, (anchor_emission_law wDocAB (by decide)).1⟩

/-- C8, counterexample: `download_document` does not write a file when the
fetch fails, so a failed fetch is retried by a later call for the same URL -
two network requests for one URL in one run, refuting "at most one network
fetch per distinct URL". -/
theorem download_refetch_after_failure_cex :
    ¬ (fetchCount "/Content/a.htm"
        (run_downloads (fun _ => false) ∅ ["/Content/a.htm", "/Content/a.htm"]).2 ≤ 1) := by
  decide

/-- C8 (amended): for a URL whose fetch succeeds, at most one network
request is made for it across any sequence of `download_document` calls in a
run; a call finding the file on disk returns the existing local path with no
network request, and once the file is on disk every call for that URL makes
no network request at all. -/
theorem download_document_cache_law (ok : String → Bool) (fs : Finset String)
    (calls : List String) (u : String) (hok : ok u = true) :
    fetchCount u (run_downloads ok fs calls).2 ≤ 1
    ∧ (tmp_path u ∈ fs → download_document ok fs u = (some (tmp_path u, fs), false))
    ∧ (tmp_path u ∈ fs → fetchCount u (run_downloads ok fs calls).2 = 0) := by
  refine ⟨run_downloads_le_one ok u hok calls fs, ?_,
    fun hmem => run_downloads_cached ok u calls fs hmem⟩
  intro hmem
  simp [download_document, hmem]

/-- Witness for C8's amended theorem with the file already cached. -/
theorem download_document_cache_law_witness :
    fetchCount "/Content/a.htm"
      (run_downloads (fun _ => true) {"tmp/Content/a.htm"}
        ["/Content/a.htm", "/Content/a.htm"]).2 ≤ 1
    ∧ download_document (fun _ => true) {"tmp/Content/a.htm"} "/Content/a.htm"
        = (some (tmp_path "/Content/a.htm", {"tmp/Content/a.htm"}), false)
    ∧ fetchCount "/Content/a.htm"
        (run_downloads (fun _ => true) {"tmp/Content/a.htm"}
          ["/Content/a.htm", "/Content/a.htm"]).2 = 0 :=
  ⟨(download_document_cache_law (fun _ => true) {"tmp/Content/a.htm"}
      ["/Content/a.htm", "/Content/a.htm"] "/Content/a.htm" rfl).1,
   (download_document_cache_law (fun _ => true) {"tmp/Content/a.htm"}
      ["/Content/a.htm", "/Content/a.htm"] "/Content/a.htm" rfl).2.1 (by decide),
   (download_document_cache_law (fun _ => true) {"tmp/Content/a.htm"}
      ["/Content/a.htm", "/Content/a.htm"] "/Content/a.htm" rfl).2.2 (by decide)⟩

/-- C9, counterexample: asset references are queued without the
`is_relative_href` filter, so the off-site URL `http://example.com/x.png`
appearing as an `img src` on a crawled page is added to the asset queue,
refuting "never added to the page queue or the asset queue". -/
theorem offsite_asset_queued_cex :
    "http://example.com/x.png" ∈ extract_asset_links "/Content/a/b.htm" wDocNineC
    ∧ netlocOf "http://example.com/x.png" = "example.com" := by
  constructor <;> decide

/-- C9 (amended): a reference is classified same-origin/relative iff it is
present, has an empty network location, and does not start with
`javascript:` or `mailto:`; every URL entering the page queue originates
from such a relative `a`-href via `resolve_url` (stylesheet and image
references, however, are queued as assets without this filter - see the
counterexample). -/
theorem relative_href_extraction (h0 : String) (page : String) (d : Doc) :
    (is_relative_href (some h0) = true ↔
      (netlocOf h0 = "" ∧ startsW h0 "javascript:" = false ∧ startsW h0 "mailto:" = false))
    ∧ is_relative_href none = false
    ∧ (∀ u ∈ extract_page_links page d,
        ∃ e ∈ d.els, ∃ hr, e.tag = "a" ∧ e.href = some hr
          ∧ is_relative_href (some hr) = true ∧ u = resolve_url page hr) := by
  refine ⟨?_, rfl, ?_⟩
  · simp [is_relative_href, Bool.and_eq_true, beq_iff_eq, Bool.not_eq_true', and_assoc]
  · intro u hu
    unfold extract_page_links at hu
    obtain ⟨e, he, hfe⟩ := List.mem_filterMap.mp hu
    cases hh : e.href with
    | none =>
      rw [hh] at hfe
      simp at hfe
    | some hr =>
      rw [hh] at hfe
      simp only at hfe
      split at hfe
      · next hcond =>
        refine ⟨e, he, hr, hcond.1, hh, hcond.2, ?_⟩
        injection hfe with hfe2
        exact hfe2.symm
      · exact absurd hfe (by simp)

/-- Witness for C9's amended theorem: the on-site link of `wDocNine` is
extracted and traced back to its relative href. -/
theorem relative_href_extraction_witness :
    ∃ e ∈ wDocNine.els, ∃ hr, e.tag = "a" ∧ e.href = some hr
      ∧ is_relative_href (some hr) = true
      ∧ "/Content/b.htm" = resolve_url "/Content/a.htm" hr :=
  (relative_href_extraction "h" "/Content/a.htm" wDocNine).2.2 "/Content/b.htm" (by decide)

/-- C10: `crawl_pages` starts with `done = {"/index.htm"}` before the first
pop, so when `/index.htm` is not among the seeds it is never popped
(downloaded/sanitized) and never yielded (indexed) in any crawl trace, even
when discovered as a link. -/
theorem index_htm_never_crawled (fetch : String → Option PageData) (seeds : Finset String)
    (tr : List String) (s1 : CrawlState)
    (hseed : "/index.htm" ∉ seeds)
    (h : CrawlTrace fetch (crawl_pages_init seeds) tr s1) :
    (crawl_pages_init seeds).done = {"/index.htm"}
    ∧ "/index.htm" ∉ tr
    ∧ (∀ pr ∈ s1.yielded, pr.2 ≠ "/index.htm") := by
  have hdisj : ∀ q ∈ (crawl_pages_init seeds).done, q ∉ (crawl_pages_init seeds).pending := by
    intro q hq
    have hq' : q = "/index.htm" := by simpa [crawl_pages_init] using hq
    subst hq'
    simpa [crawl_pages_init] using hseed
  have hnd := trace_popped_not_done h hdisj
  refine ⟨rfl, ?_, ?_⟩
  · intro hc
    exact hnd _ hc (by simp [crawl_pages_init])
  · intro pr hpr
    rcases trace_yield_src h pr hpr with hy | htr
    · simp [crawl_pages_init] at hy
    · intro hc
      rw [hc] at htr
      exact hnd _ htr (by simp [crawl_pages_init])

/-- Witness for C10 on a concrete one-page crawl that discovers nothing. -/
theorem index_htm_never_crawled_witness :
    (crawl_pages_init {"/Content/a.htm"}).done = {"/index.htm"}
    ∧ "/index.htm" ∉ ["/Content/a.htm"]
    ∧ (∀ pr ∈ (crawlStep wFetchFail (crawl_pages_init {"/Content/a.htm"})
          "/Content/a.htm").yielded, pr.2 ≠ "/index.htm") :=
  index_htm_never_crawled wFetchFail {"/Content/a.htm"} ["/Content/a.htm"]
    (crawlStep wFetchFail (crawl_pages_init {"/Content/a.htm"}) "/Content/a.htm")
    (by decide)
    (CrawlTrace.cons _ _ _ _ (by decide) (CrawlTrace.nil _))
